import Mathlib

set_option maxHeartbeats 1000000

/-!
Verification of the unmessify repository: a shallow embedding of the CSV
parser/serializer and table-editor state logic of `src/editor.js`, and of
the cache decision logic of the service worker `src/sw.js`.

JavaScript strings are modelled as `List Char`; JavaScript numbers holding
row ids are modelled as `Int` (they start at 0 and `addRow` computes
`Math.max(...ids, -1) + 1`, so `-1` must be representable).
-/

/-- A single CSV field, i.e. a JavaScript string. -/
abbrev CsvField := List Char

/-- The characters removed by JavaScript `String.prototype.trim`:
the ECMAScript WhiteSpace and LineTerminator code points. -/
def isJsWhitespace (c : Char) : Bool :=
  c.toNat = 9 || c.toNat = 10 || c.toNat = 11 || c.toNat = 12 || c.toNat = 13 ||
  c.toNat = 32 || c.toNat = 160 || c.toNat = 0x1680 ||
  (0x2000 ≤ c.toNat && c.toNat ≤ 0x200A) ||
  c.toNat = 0x2028 || c.toNat = 0x2029 || c.toNat = 0x202F ||
  c.toNat = 0x205F || c.toNat = 0x3000 || c.toNat = 0xFEFF

/-- JavaScript `s.trim()`: drop leading and trailing whitespace. -/
def jsTrim (s : List Char) : List Char :=
  ((s.dropWhile isJsWhitespace).reverse.dropWhile isJsWhitespace).reverse

/-- End-of-record step of `parseCSVRecords` (src/editor.js, lines 394-412 and
419-425): executed at an unquoted line break and at the end of the input.
Pushes the trimmed current field onto the current record when the field trims
to something non-empty or the record is already non-empty; the completed
record is appended to `records` only when some field in it is non-empty.
Returns the new `(currentField, currentRecord, records)` triple. -/
def pcrNewline (field : CsvField) (record : List CsvField) (records : List (List CsvField)) :
    CsvField × List CsvField × List (List CsvField) :=
  if jsTrim field ≠ [] ∨ record ≠ [] then
    let rec2 := record ++ [jsTrim field]
    ([], [], if rec2.any (fun f => f.length > 0) then records ++ [rec2] else records)
  else
    (field, record, records)

/-- The character scan of `parseCSVRecords` (src/editor.js, lines 362-428):
one clause per branch of the `while` loop, in source order.  The arguments
after the input are the loop state: `inQuotes`, `currentField`,
`currentRecord`, `records`. -/
def pcr : List Char → Bool → CsvField → List CsvField → List (List CsvField) → List (List CsvField)
  | [], _, field, record, records => (pcrNewline field record records).2.2
  | '"' :: '"' :: cs, true, field, record, records =>
      pcr cs true (field ++ ['"']) record records
  | '"' :: cs, true, field, record, records => pcr cs false field record records
  | '"' :: cs, false, field, record, records => pcr cs true field record records
  | ',' :: cs, false, field, record, records =>
      pcr cs false [] (record ++ [jsTrim field]) records
  | '\r' :: '\n' :: cs, false, field, record, records =>
      pcr cs false (pcrNewline field record records).1
        (pcrNewline field record records).2.1 (pcrNewline field record records).2.2
  | '\n' :: cs, false, field, record, records =>
      pcr cs false (pcrNewline field record records).1
        (pcrNewline field record records).2.1 (pcrNewline field record records).2.2
  | '\r' :: cs, false, field, record, records =>
      pcr cs false (pcrNewline field record records).1
        (pcrNewline field record records).2.1 (pcrNewline field record records).2.2
  | c :: cs, inQ, field, record, records => pcr cs inQ (field ++ [c]) record records

/-- `parseCSVRecords` (src/editor.js): scan the whole text starting from the
initial loop state. -/
def parseCSVRecords (csvText : List Char) : List (List CsvField) :=
  pcr csvText false [] [] []

/-- A table row: `{ id, values }` as built by `parseCSV` (src/editor.js). -/
structure Row where
  id : Int
  values : List CsvField
deriving DecidableEq

/-- A parsed table: `{ headers, rows }` (src/editor.js). -/
structure Table where
  headers : List CsvField
  rows : List Row
deriving DecidableEq

/-- The padding `while` loop of `parseCSV` (src/editor.js, lines 352-355):
`while (record.length < headers.length) record.push('')`.  Written in closed
form: append empty fields until the record has at least `n` fields. -/
def padTo (n : Nat) (record : List CsvField) : List CsvField :=
  record ++ List.replicate (n - record.length) []

/-- `parseCSV` (src/editor.js, lines 345-360): the first record is the header
row; the remaining records become rows with their zero-based position as id,
padded to the header width. -/
def parseCSV (csvText : List Char) : Table :=
  match parseCSVRecords csvText with
  | [] => { headers := [], rows := [] }
  | headers :: rest =>
    { headers := headers,
      rows := rest.enum.map (fun p => { id := (p.1 : Int), values := padTo headers.length p.2 }) }

/-- The quote-doubling `replace(/"/g, '""')` used by `escapeCSVField`
(src/editor.js, line 791). -/
def dupQuotes : List Char → List Char
  | [] => []
  | c :: cs => if c = '"' then '"' :: '"' :: dupQuotes cs else c :: dupQuotes cs

/-- Whether `escapeCSVField` quotes the field: it contains a comma, quote or
line break (src/editor.js, line 790). -/
def needsQuote (f : CsvField) : Bool :=
  f.any (fun c => c = ',' || c = '"' || c = '\n' || c = '\r')

/-- `escapeCSVField` (src/editor.js, lines 786-795). -/
def escapeCSVField (f : CsvField) : CsvField :=
  if needsQuote f then '"' :: (dupQuotes f ++ ['"']) else f

/-- JavaScript `Array.prototype.join(',')` on a list of fields. -/
def joinComma : List CsvField → List Char
  | [] => []
  | [f] => f
  | f :: fs => f ++ ',' :: joinComma fs

/-- `generateCSVContent` (src/editor.js, lines 782-807): the escaped header
line followed by one escaped line per row, each terminated by a newline. -/
def generateCSVContent (t : Table) : List Char :=
  (joinComma (t.headers.map escapeCSVField) ++ ['\n']) ++
    (t.rows.map (fun r => joinComma (r.values.map escapeCSVField) ++ ['\n'])).flatten

/-- JavaScript `Array.prototype.join(sep)` with an arbitrary separator,
used by the change descriptions (`.join(', ')`). -/
def joinSep (sep : List Char) : List CsvField → List Char
  | [] => []
  | [f] => f
  | f :: fs => f ++ sep ++ joinSep sep fs

/-- The kind tag of a change summary entry (src/editor.js `calculateChanges`). -/
inductive ChangeType where
  | added : ChangeType
  | deleted : ChangeType
  | modified : ChangeType
deriving DecidableEq

/-- One change summary entry: `{ type, description }` (src/editor.js). -/
structure Change where
  ctype : ChangeType
  description : List Char
deriving DecidableEq

/-- `calculateChanges` (src/editor.js, lines 608-649): added rows (current id
absent from the original id set), then deleted rows (original id absent from
the current id set), then modified rows (current rows whose id is found in
the original and whose value array serializes differently — i.e. differs). -/
def calculateChanges (originalData currentData : Table) : List Change :=
  let originalRowIds := originalData.rows.map Row.id
  let currentRowIds := currentData.rows.map Row.id
  let added := (currentData.rows.filter (fun row => !originalRowIds.contains row.id)).map
    (fun row =>
      { ctype := ChangeType.added,
        description := "Row ".toList ++ Nat.toDigits 10 (currentData.rows.indexOf row + 1) ++
          ": ".toList ++ joinSep ", ".toList (row.values.take 2) ++ "...".toList })
  let deleted := (originalData.rows.filter (fun row => !currentRowIds.contains row.id)).map
    (fun row =>
      { ctype := ChangeType.deleted,
        description := "Row with data: ".toList ++
          joinSep ", ".toList (row.values.take 2) ++ "...".toList })
  let modified := (currentData.rows.filter (fun row =>
      match originalData.rows.find? (fun r => r.id = row.id) with
      | some originalRow => decide (row.values ≠ originalRow.values)
      | none => false)).map
    (fun row =>
      { ctype := ChangeType.modified,
        description := "Row ".toList ++ Nat.toDigits 10 (currentData.rows.indexOf row + 1) ++
          ": ".toList ++ joinSep ", ".toList (row.values.take 2) ++ "...".toList })
  added ++ deleted ++ modified

/-- The editor module state: `originalData`, `currentData`, `hasChanges`
(src/editor.js, lines 1-5). -/
structure EditorState where
  originalData : Table
  currentData : Table
  hasChanges : Bool
deriving DecidableEq

/-- `checkForChanges` (src/editor.js, lines 570-577): `hasChanges` is set by
comparing the JSON serializations of the two tables, which for this data
model coincides with structural inequality. -/
def checkForChanges (st : EditorState) : EditorState :=
  { st with hasChanges := decide (st.originalData ≠ st.currentData) }

/-- The row mutation of `handleCellChange`: `currentData.rows.find` locates
the first row whose id matches and `row.values[colIndex] = newValue` updates
it in place (in-bounds column indices, the only ones the DOM produces). -/
def updateFirstRow (rowId : Int) (colIndex : Nat) (newValue : CsvField) : List Row → List Row
  | [] => []
  | r :: rs =>
    if r.id = rowId then { r with values := r.values.set colIndex newValue } :: rs
    else r :: updateFirstRow rowId colIndex newValue rs

/-- `handleCellChange` (src/editor.js, lines 502-513): update the first row
with a matching id and recompute `hasChanges`; do nothing when no row has
the id. -/
def handleCellChange (st : EditorState) (rowId : Int) (colIndex : Nat)
    (newValue : CsvField) : EditorState :=
  if (st.currentData.rows.find? (fun r => r.id = rowId)).isSome then
    checkForChanges
      { st with currentData :=
          { st.currentData with
            rows := updateFirstRow rowId colIndex newValue st.currentData.rows } }
  else st

/-- The fresh id computed by `addRow`:
`Math.max(...currentData.rows.map(r => r.id), -1)`. -/
def maxId (rows : List Row) : Int := rows.foldr (fun r m => max r.id m) (-1)

/-- `addRow` (src/editor.js, lines 528-548), restricted to its state update:
append one row with id `maxId + 1` and `headers.length` empty values. -/
def addRow (t : Table) : Table :=
  { t with rows :=
      t.rows ++ [{ id := maxId t.rows + 1, values := List.replicate t.headers.length [] }] }

/-- `deleteSelectedRow` (src/editor.js, lines 550-568), restricted to its
state update: keep exactly the rows whose id is not among the selected ids. -/
def deleteSelectedRow (t : Table) (selectedRowIds : List Int) : Table :=
  { t with rows := t.rows.filter (fun row => !selectedRowIds.contains row.id) }

/-- One editing-session operation on the current table (claim C3's session
operations: `addRow` and row deletion). -/
inductive EditOp where
  | add : EditOp
  | delete : List Int → EditOp

/-- Apply one editing operation. -/
def applyEditOp (t : Table) : EditOp → Table
  | EditOp.add => addRow t
  | EditOp.delete ids => deleteSelectedRow t ids

/-- Apply a whole session of editing operations, oldest first. -/
def applyEditOps (t : Table) (ops : List EditOp) : Table := ops.foldl applyEditOp t

/-- The cache version tag of the service worker (src/sw.js, line 1). -/
def CACHE_NAME : List Char := "unmessify-v20250901".toList

/-- A service-worker `Response`, reduced to the two attributes the fetch
handler inspects: HTTP status and response type (a string such as "basic"). -/
structure SWResponse where
  status : Nat
  rtype : List Char
deriving DecidableEq

/-- The fetch handler of src/sw.js (lines 43-77) as a decision function.
Inputs: the result of `caches.match(event.request)`, the network fetch
result (`none` models a rejected fetch), `event.request.destination`, and
the result of `caches.match('/index.html')`.  Output: the response the
handler resolves with, and whether a clone was stored in the cache. -/
def handleFetch (cacheResult : Option SWResponse) (networkResult : Option SWResponse)
    (destination : List Char) (shellCache : Option SWResponse) :
    Option SWResponse × Bool :=
  match cacheResult with
  | some response => (some response, false)
  | none =>
    match networkResult with
    | some response =>
      if response.status ≠ 200 ∨ response.rtype ≠ "basic".toList then (some response, false)
      else (some response, true)
    | none =>
      if destination = "document".toList then (shellCache, false)
      else (none, false)

/-- The activate handler body (src/sw.js, lines 80-93), generalized over the
closed-over version tag: the names of the cache buckets that get deleted
(`cacheName !== CACHE_NAME`). -/
def activateDeletes (tag : List Char) (cacheNames : List (List Char)) : List (List Char) :=
  cacheNames.filter (fun n => n ≠ tag)

/-- The activate handler as shipped, with the repository's `CACHE_NAME`. -/
def swActivateDeletes (cacheNames : List (List Char)) : List (List Char) :=
  activateDeletes CACHE_NAME cacheNames

/-- The id sequence of a table (claim C4's id-set view of the diff). -/
def idsOf (t : Table) : List Int := t.rows.map Row.id

/-- Spec-side lookup: the value sequence stored under an id (the first
matching row, unique when ids are distinct). -/
def valuesOfId (t : Table) (i : Int) : Option (List CsvField) :=
  (t.rows.find? (fun r => r.id = i)).map Row.values

/-- The original table of the spec's single-cell-edit example (claim C4). -/
def c4Orig : Table :=
  { headers := ["Date".toList, "RoomNumber".toList],
    rows := [{ id := 0, values := ["1".toList, "101-150".toList] },
             { id := 1, values := ["2".toList, "201-250".toList] }] }

/-- The example's current table: row id 0, column 1 edited from "101-150"
to "101-199" through the editor's own cell-mutation operation. -/
def c4Cur : Table :=
  (handleCellChange { originalData := c4Orig, currentData := c4Orig, hasChanges := false }
    0 1 ("101-199".toList)).currentData

/-- The concrete table refuting claim C1 as stated: its single row has a
non-empty field and every header and cell is free of leading and trailing
whitespace, yet its row id (1) is not the row's position (0), which the
parser reassigns. -/
def c1Cex : Table := { headers := ["a".toList], rows := [{ id := 1, values := ["x".toList] }] }

/-! ### Step lemmas for the parser scan `pcr`, one per loop branch -/

theorem pcr_nil (iq : Bool) (f : CsvField) (r : List CsvField)
    (rs : List (List CsvField)) :
    pcr [] iq f r rs = (pcrNewline f r rs).2.2 := rfl

theorem pcr_quote_escape (cs : List Char) (f : CsvField) (r : List CsvField)
    (rs : List (List CsvField)) :
    pcr ('"' :: '"' :: cs) true f r rs = pcr cs true (f ++ ['"']) r rs := rfl

theorem pcr_comma (cs : List Char) (f : CsvField) (r : List CsvField)
    (rs : List (List CsvField)) :
    pcr (',' :: cs) false f r rs = pcr cs false [] (r ++ [jsTrim f]) rs := rfl

theorem pcr_lf (cs : List Char) (f : CsvField) (r : List CsvField)
    (rs : List (List CsvField)) :
    pcr ('\n' :: cs) false f r rs =
      pcr cs false (pcrNewline f r rs).1 (pcrNewline f r rs).2.1
        (pcrNewline f r rs).2.2 := rfl

theorem pcr_crlf (cs : List Char) (f : CsvField) (r : List CsvField)
    (rs : List (List CsvField)) :
    pcr ('\r' :: '\n' :: cs) false f r rs =
      pcr cs false (pcrNewline f r rs).1 (pcrNewline f r rs).2.1
        (pcrNewline f r rs).2.2 := rfl

theorem pcr_quote_open (cs : List Char) (f : CsvField) (r : List CsvField)
    (rs : List (List CsvField)) :
    pcr ('"' :: cs) false f r rs = pcr cs true f r rs := by
  rw [pcr.eq_def]
  split <;> simp_all [eq_comm]

theorem pcr_quote_close (cs : List Char) (f : CsvField) (r : List CsvField)
    (rs : List (List CsvField)) (h : cs.head? ≠ some '"') :
    pcr ('"' :: cs) true f r rs = pcr cs false f r rs := by
  rw [pcr.eq_def]
  split <;> simp_all [eq_comm]

theorem pcr_true_other (c : Char) (hq : c ≠ '"') (cs : List Char) (f : CsvField)
    (r : List CsvField) (rs : List (List CsvField)) :
    pcr (c :: cs) true f r rs = pcr cs true (f ++ [c]) r rs := by
  rw [pcr.eq_def]
  split <;> simp_all [eq_comm]

theorem pcr_other (c : Char) (hq : c ≠ '"') (hc : c ≠ ',') (hn : c ≠ '\n')
    (hr : c ≠ '\r') (cs : List Char) (iq : Bool) (f : CsvField)
    (r : List CsvField) (rs : List (List CsvField)) :
    pcr (c :: cs) iq f r rs = pcr cs iq (f ++ [c]) r rs := by
  rw [pcr.eq_def]
  split <;> simp_all [eq_comm]

theorem pcr_cr (cs : List Char) (f : CsvField) (r : List CsvField)
    (rs : List (List CsvField)) (h : cs.head? ≠ some '\n') :
    pcr ('\r' :: cs) false f r rs =
      pcr cs false (pcrNewline f r rs).1 (pcrNewline f r rs).2.1
        (pcrNewline f r rs).2.2 := by
  rw [pcr.eq_def]
  split <;> simp_all [eq_comm]

/-! ### JavaScript trim is a projection: basic `jsTrim` lemmas -/

theorem head?_dropWhile_false (p : Char → Bool) (l : List Char) (a : Char)
    (h : (l.dropWhile p).head? = some a) : p a = false := by
  induction l with
  | nil => cases h
  | cons c cs ih =>
    rw [List.dropWhile_cons] at h
    by_cases hc : p c = true
    · rw [if_pos hc] at h; exact ih h
    · rw [if_neg hc] at h
      injection h with h2
      subst h2
      simpa using hc

theorem dropWhile_eq_self_of_head (p : Char → Bool) (l : List Char)
    (h : ∀ a, l.head? = some a → p a = false) : l.dropWhile p = l := by
  cases l with
  | nil => rfl
  | cons c cs =>
    have hc := h c rfl
    simp [List.dropWhile_cons, hc]

theorem dropWhile_idem (p : Char → Bool) (l : List Char) :
    (l.dropWhile p).dropWhile p = l.dropWhile p :=
  dropWhile_eq_self_of_head p _ (fun a ha => head?_dropWhile_false p l a ha)

theorem dropWhile_jsTrim (l : List Char) :
    (jsTrim l).dropWhile isJsWhitespace = jsTrim l := by
  apply dropWhile_eq_self_of_head
  intro a ha
  unfold jsTrim at ha
  rw [List.head?_reverse] at ha
  have hsplit : (l.dropWhile isJsWhitespace).reverse.takeWhile isJsWhitespace ++
      (l.dropWhile isJsWhitespace).reverse.dropWhile isJsWhitespace =
      (l.dropWhile isJsWhitespace).reverse :=
    List.takeWhile_append_dropWhile _ _
  have hlast : (l.dropWhile isJsWhitespace).reverse.getLast? = some a := by
    rw [← hsplit, List.getLast?_append, ha]
    rfl
  rw [List.getLast?_reverse] at hlast
  exact head?_dropWhile_false isJsWhitespace l a hlast

theorem jsTrim_idem (l : List Char) : jsTrim (jsTrim l) = jsTrim l := by
  conv_lhs => rw [jsTrim]
  rw [dropWhile_jsTrim l]
  rw [show (jsTrim l).reverse =
      (l.dropWhile isJsWhitespace).reverse.dropWhile isJsWhitespace from by
    rw [jsTrim, List.reverse_reverse]]
  rw [dropWhile_idem]
  rfl

/-! ### Basic lemmas about `maxId` -/

theorem maxId_ge (rows : List Row) : ∀ r ∈ rows, r.id ≤ maxId rows := by
  induction rows with
  | nil => intro r hr; cases hr
  | cons a l ih =>
    intro r hr
    rcases List.mem_cons.mp hr with h | h
    · subst h; exact le_max_left r.id (maxId l)
    · exact le_trans (ih r h) (le_max_right a.id (maxId l))

theorem maxId_mem (rows : List Row) :
    maxId rows = -1 ∨ maxId rows ∈ rows.map Row.id := by
  induction rows with
  | nil => left; rfl
  | cons a l ih =>
    have hm : maxId (a :: l) = max a.id (maxId l) := rfl
    rcases max_choice a.id (maxId l) with h | h
    · right; rw [hm, h]; exact List.mem_map_of_mem Row.id (List.mem_cons_self a l)
    · rcases ih with h1 | h1
      · left; rw [hm, h, h1]
      · right; rw [hm, h]
        simp only [List.map_cons, List.mem_cons]
        right; exact h1

/-! ### Claim theorems: the easy, largely computational claims -/

/-- Claim C9: parsing the CSV text `"Date,RoomNumber\n1,101 - 150\n2,\n"`
yields headers `["Date","RoomNumber"]` and exactly two rows with value
sequences `["1","101 - 150"]` and `["2",""]`: the record with one non-empty
field is kept and the trailing empty field is preserved. -/
theorem parseCSV_example_two_rows :
    parseCSV ("Date,RoomNumber\n1,101 - 150\n2,\n".toList) =
      { headers := ["Date".toList, "RoomNumber".toList],
        rows := [{ id := 0, values := ["1".toList, "101 - 150".toList] },
                 { id := 1, values := ["2".toList, "".toList] }] } := by decide

/-- Claim C2 (code bug evaluation): on the input `"Date\n1,2\n"` the parsed
table has one header but its single row keeps two values — `parseCSV` pads
short records but never truncates long ones, so the equal-length invariant
fails for records wider than the header row. -/
theorem parseCSV_row_longer_than_headers :
    (parseCSV ("Date\n1,2\n".toList)).headers.length = 1 ∧
    (parseCSV ("Date\n1,2\n".toList)).rows.map (fun r => r.values.length) = [2] := by decide

/-- Claim C5: `addRow` appends exactly one row whose id is
`max(existing ids ∪ -1) + 1` and whose values are `headers.length` empty
strings; it is total, and on tables with ids 0,1,2 (resp. 0,2) the new id
is 3 in both cases (max+1, not gap-filling). -/
theorem addRow_spec (t : Table) :
    (addRow t).headers = t.headers ∧
    (addRow t).rows =
      t.rows ++ [{ id := maxId t.rows + 1, values := List.replicate t.headers.length [] }] ∧
    (∀ r ∈ t.rows, r.id ≤ maxId t.rows) ∧
    (maxId t.rows = -1 ∨ maxId t.rows ∈ t.rows.map Row.id) ∧
    (addRow { headers := ["a".toList],
              rows := [⟨0, [[]]⟩, ⟨1, [[]]⟩, ⟨2, [[]]⟩] }).rows.map Row.id = [0, 1, 2, 3] ∧
    (addRow { headers := ["a".toList],
              rows := [⟨0, [[]]⟩, ⟨2, [[]]⟩] }).rows.map Row.id = [0, 2, 3] := by
  refine ⟨rfl, rfl, maxId_ge t.rows, maxId_mem t.rows, by decide, by decide⟩

/-- Witness for `addRow_spec`: its membership hypothesis discharged at a
concrete one-row table. -/
theorem addRow_spec_witness :
    ({ id := 5, values := [] } : Row).id ≤ maxId [{ id := 5, values := [] }] :=
  (addRow_spec { headers := [], rows := [{ id := 5, values := [] }] }).2.2.1
    { id := 5, values := [] } (by simp)

/-- Claim C7: during activate, a cache bucket is deleted iff its name differs
from the current version tag; in particular a bucket `app-v1` present while
the tag is `app-v2` is deleted and the bucket carrying the tag is kept. -/
theorem swActivate_spec (tag n : List Char) (cacheNames : List (List Char)) :
    (n ∈ activateDeletes tag cacheNames ↔ n ∈ cacheNames ∧ n ≠ tag) ∧
    (n ∈ swActivateDeletes cacheNames ↔ n ∈ cacheNames ∧ n ≠ CACHE_NAME) ∧
    "app-v1".toList ∈ activateDeletes "app-v2".toList ["app-v1".toList, "app-v2".toList] ∧
    "app-v2".toList ∉ activateDeletes "app-v2".toList ["app-v1".toList, "app-v2".toList] := by
  refine ⟨?_, ?_, by decide, by decide⟩ <;>
    simp [activateDeletes, swActivateDeletes, List.mem_filter]

/-- Witness for `swActivate_spec`: the deleted-bucket criterion applied to a
concrete bucket list. -/
theorem swActivate_spec_witness :
    "app-v1".toList ∈ activateDeletes "app-v2".toList ["app-v1".toList] :=
  (swActivate_spec "app-v2".toList "app-v1".toList ["app-v1".toList]).1.mpr
    ⟨by decide, by decide⟩

/-- Claim C6: the fetch handler serves the cache on a hit; on a miss it
returns the network response and stores a clone iff the response is HTTP 200
with type `basic`; on network failure with no cache entry it falls back to
the cached shell exactly for top-level navigations and yields no response
otherwise. -/
theorem handleFetch_spec (cached net : Option SWResponse) (dest : List Char)
    (shell : Option SWResponse) :
    (∀ r, cached = some r → handleFetch cached net dest shell = (some r, false)) ∧
    (∀ r, cached = none → net = some r →
      (handleFetch cached net dest shell).1 = some r ∧
      ((handleFetch cached net dest shell).2 = true ↔
        (r.status = 200 ∧ r.rtype = "basic".toList))) ∧
    (cached = none → net = none →
      (∀ s, shell = some s →
        ((handleFetch cached net dest shell).1 = some s ↔ dest = "document".toList)) ∧
      (dest ≠ "document".toList → handleFetch cached net dest shell = (none, false))) := by
  refine ⟨?_, ?_, ?_⟩
  · rintro r rfl; rfl
  · rintro r rfl rfl
    have he : handleFetch none (some r) dest shell =
        if r.status ≠ 200 ∨ r.rtype ≠ "basic".toList then (some r, false)
        else (some r, true) := rfl
    by_cases h : r.status ≠ 200 ∨ r.rtype ≠ "basic".toList
    · rw [he, if_pos h]
      exact ⟨rfl, iff_of_false Bool.false_ne_true (by tauto)⟩
    · rw [he, if_neg h]
      push_neg at h
      exact ⟨rfl, iff_of_true rfl h⟩
  · rintro rfl rfl
    constructor
    · rintro s rfl
      have he : handleFetch none none dest (some s) =
          if dest = "document".toList then (some s, false) else (none, false) := rfl
      by_cases h : dest = "document".toList
      · rw [he, if_pos h]
        exact iff_of_true rfl h
      · rw [he, if_neg h]
        exact iff_of_false (fun hc => Option.noConfusion hc) h
    · intro h
      have he : handleFetch none none dest shell =
          if dest = "document".toList then (shell, false) else (none, false) := rfl
      rw [he, if_neg h]

/-- Witness for `handleFetch_spec`: the three branches exercised on concrete
responses. -/
theorem handleFetch_spec_witness :
    handleFetch (some { status := 200, rtype := "basic".toList }) none "".toList none =
      (some { status := 200, rtype := "basic".toList }, false) :=
  (handleFetch_spec (some { status := 200, rtype := "basic".toList }) none "".toList none).1
    { status := 200, rtype := "basic".toList } rfl

/-- Claim C1 counterexample: a table satisfying the claim's hypotheses
(every row has a non-empty field; headers and cells are trim-clean) whose
serialize-then-parse image differs from it. -/
theorem roundtrip_fails_for_nonpositional_ids :
    c1Cex.rows.all (fun r => r.values.any (fun f => f ≠ [])) = true ∧
    c1Cex.headers.all (fun h => jsTrim h = h) = true ∧
    c1Cex.rows.all (fun r => r.values.all (fun v => jsTrim v = v)) = true ∧
    parseCSV (generateCSVContent c1Cex) ≠ c1Cex := by decide

/-! ### Claim C4: the diff classifies rows exactly by id sets -/

theorem find?_id_self (rows : List Row) (hn : (rows.map Row.id).Nodup)
    (r : Row) (hr : r ∈ rows) : rows.find? (fun x => x.id = r.id) = some r := by
  induction rows with
  | nil => cases hr
  | cons a l ih =>
    rcases List.mem_cons.mp hr with h | h
    · subst h
      simp [List.find?_cons]
    · have hmem : r.id ∈ l.map Row.id := List.mem_map_of_mem Row.id h
      rw [List.map_cons, List.nodup_cons] at hn
      have hne : ¬(a.id = r.id) := fun he => hn.1 (he ▸ hmem)
      simp only [List.find?_cons, decide_eq_false hne]
      exact ih hn.2 h

theorem map_const_filter (rows : List Row) (p : Row → Bool) (q : Int → Bool)
    (mk : Row → Change) (c : ChangeType)
    (hmk : ∀ r, Change.ctype (mk r) = c) (hpq : ∀ r ∈ rows, p r = q r.id) :
    ((rows.filter p).map mk).map Change.ctype =
      ((rows.map Row.id).filter q).map (fun _ => c) := by
  rw [List.map_map, List.filter_map Row.id rows, List.map_map]
  rw [List.filter_congr hpq]
  exact List.map_congr_left (fun r _ => hmk r)

/-- Claim C4: when the current table's row ids are pairwise distinct (the
invariant the editor maintains, see `editSession_ids_nodup`), the change list
classifies rows exactly by id sets — one `added` entry per current-only id,
then one `deleted` entry per original-only id, then one `modified` entry per
id present in both whose value sequences differ (order-sensitive exact
comparison); and in the spec's example (editing row id 0's column 1 from
"101-150" to "101-199") the diff is exactly one `modified` change whose
description references that row. -/
theorem calculateChanges_id_set_classification (orig cur : Table)
    (hnc : (idsOf cur).Nodup) :
    ((calculateChanges orig cur).map Change.ctype =
      ((idsOf cur).filter (fun i => !(idsOf orig).contains i)).map
        (fun _ => ChangeType.added) ++
      ((idsOf orig).filter (fun i => !(idsOf cur).contains i)).map
        (fun _ => ChangeType.deleted) ++
      ((idsOf cur).filter (fun i => (idsOf orig).contains i &&
          decide (valuesOfId orig i ≠ valuesOfId cur i))).map
        (fun _ => ChangeType.modified)) ∧
    (calculateChanges c4Orig c4Cur).map Change.ctype = [ChangeType.modified] ∧
    (calculateChanges c4Orig c4Cur).map Change.description =
      ["Row 1: 1, 101-199...".toList] := by
  refine ⟨?_, by decide, by decide⟩
  simp only [calculateChanges]
  rw [List.map_append, List.map_append]
  refine congrArg₂ HAppend.hAppend (congrArg₂ HAppend.hAppend ?_ ?_) ?_
  · exact map_const_filter cur.rows _ _ _ ChangeType.added (fun r => rfl) (fun r _ => rfl)
  · exact map_const_filter orig.rows _ _ _ ChangeType.deleted (fun r => rfl) (fun r _ => rfl)
  · refine map_const_filter cur.rows _ _ _ ChangeType.modified (fun r => rfl) ?_
    intro r hr
    have hcur : valuesOfId cur r.id = some r.values := by
      unfold valuesOfId
      rw [find?_id_self cur.rows hnc r hr]
      rfl
    cases h : orig.rows.find? (fun x => x.id = r.id) with
    | none =>
      have hnm : r.id ∉ idsOf orig := by
        intro hmem
        obtain ⟨o, ho, hoid⟩ := List.mem_map.mp hmem
        have := List.find?_eq_none.mp h o ho
        simp [hoid] at this
      have hc : (idsOf orig).contains r.id = false := by
        simpa using hnm
      simp only [h, hc, Bool.false_and]
    | some o =>
      have hoid : o.id = r.id := by
        have := List.find?_some h
        simpa using this
      have homem : o ∈ orig.rows := List.mem_of_find?_eq_some h
      have hc : (idsOf orig).contains r.id = true := by
        have : r.id ∈ idsOf orig := hoid ▸ List.mem_map_of_mem Row.id homem
        simpa using this
      have horig : valuesOfId orig r.id = some o.values := by
        unfold valuesOfId
        rw [h]
        rfl
      simp only [h, hc, horig, hcur, Bool.true_and]
      refine decide_eq_decide.mpr ?_
      constructor
      · intro hne he
        exact hne (Option.some.inj he).symm
      · intro hne he
        exact hne (congrArg some he.symm)

/-- Witness for `calculateChanges_id_set_classification`: the classification
applied to the concrete example tables (whose id lists are duplicate-free). -/
theorem calculateChanges_id_set_classification_witness :
    (calculateChanges c4Orig c4Cur).map Change.ctype =
      ((idsOf c4Cur).filter (fun i => !(idsOf c4Orig).contains i)).map
        (fun _ => ChangeType.added) ++
      ((idsOf c4Orig).filter (fun i => !(idsOf c4Cur).contains i)).map
        (fun _ => ChangeType.deleted) ++
      ((idsOf c4Cur).filter (fun i => (idsOf c4Orig).contains i &&
          decide (valuesOfId c4Orig i ≠ valuesOfId c4Cur i))).map
        (fun _ => ChangeType.modified) :=
  (calculateChanges_id_set_classification c4Orig c4Cur (by decide)).1

/-! ### Claim C8: cell mutation on known and unknown row ids -/

theorem updateFirstRow_append (rowId : Int) (ci : Nat) (v : CsvField)
    (l1 : List Row) (r : Row) (l2 : List Row)
    (hr : r.id = rowId) (hl1 : ∀ x ∈ l1, x.id ≠ rowId) :
    updateFirstRow rowId ci v (l1 ++ r :: l2) =
      l1 ++ { r with values := r.values.set ci v } :: l2 := by
  induction l1 with
  | nil => simp [updateFirstRow, hr]
  | cons a l ih =>
    have ha : a.id ≠ rowId := hl1 a (by simp)
    simp only [List.cons_append, updateFirstRow, if_neg ha]
    exact congrArg (fun t => a :: t) (ih (fun x hx => hl1 x (by simp [hx])))

/-- Claim C8: `handleCellChange` with an absent row id leaves the whole
editor state unchanged (no row touched, no error, same row count); with a
present id it rebuilds the state with only the first matching row's value at
the given column replaced, every other row and every other column untouched,
and `hasChanges` recomputed from the new current table. -/
theorem handleCellChange_spec (st : EditorState) (rowId : Int) (ci : Nat) (v : CsvField) :
    ((∀ r ∈ st.currentData.rows, r.id ≠ rowId) → handleCellChange st rowId ci v = st) ∧
    (∀ l1 r l2, st.currentData.rows = l1 ++ r :: l2 → r.id = rowId →
      (∀ x ∈ l1, x.id ≠ rowId) →
      handleCellChange st rowId ci v =
        { originalData := st.originalData,
          currentData := { headers := st.currentData.headers,
                           rows := l1 ++ { r with values := r.values.set ci v } :: l2 },
          hasChanges := decide (st.originalData ≠
            { headers := st.currentData.headers,
              rows := l1 ++ { r with values := r.values.set ci v } :: l2 }) } ∧
      (∀ k, k ≠ ci → (r.values.set ci v)[k]? = r.values[k]?) ∧
      (ci < r.values.length → (r.values.set ci v)[ci]? = some v)) := by
  constructor
  · intro hall
    have hfind : st.currentData.rows.find? (fun r => r.id = rowId) = none := by
      rw [List.find?_eq_none]
      intro x hx
      simpa using hall x hx
    simp [handleCellChange, hfind]
  · intro l1 r l2 hrows hr hl1
    have hsome : (st.currentData.rows.find? (fun x => x.id = rowId)).isSome := by
      rw [List.find?_isSome]
      exact ⟨r, by rw [hrows]; simp, by simpa using hr⟩
    refine ⟨?_, ?_, ?_⟩
    · rw [handleCellChange, if_pos hsome, hrows,
        updateFirstRow_append rowId ci v l1 r l2 hr hl1]
      rfl
    · intro k hk
      exact List.getElem?_set_ne (Ne.symm hk)
    · intro hlt
      exact List.getElem?_set_eq_of_lt v hlt

/-- Witness for `handleCellChange_spec`: the no-op branch discharged at a
concrete state whose table lacks the requested id. -/
theorem handleCellChange_spec_witness :
    handleCellChange
      { originalData := { headers := [], rows := [] },
        currentData := { headers := [], rows := [{ id := 0, values := [] }] },
        hasChanges := false } 3 0 [] =
      { originalData := { headers := [], rows := [] },
        currentData := { headers := [], rows := [{ id := 0, values := [] }] },
        hasChanges := false } :=
  (handleCellChange_spec
      { originalData := { headers := [], rows := [] },
        currentData := { headers := [], rows := [{ id := 0, values := [] }] },
        hasChanges := false } 3 0 []).1 (by decide)

/-! ### Claim C3: id freshness across an editing session -/

theorem maxId_succ_not_mem (rows : List Row) : maxId rows + 1 ∉ rows.map Row.id := by
  intro h
  obtain ⟨r, hr, hid⟩ := List.mem_map.mp h
  have hle := maxId_ge rows r hr
  omega

theorem parseCSV_ids_nodup (csvText : List Char) :
    ((parseCSV csvText).rows.map Row.id).Nodup := by
  unfold parseCSV
  cases parseCSVRecords csvText with
  | nil => simp
  | cons headers rest =>
    simp only [List.map_map]
    have hmap : (rest.enum.map (Row.id ∘ fun p : Nat × List CsvField =>
        ({ id := (p.1 : Int), values := padTo headers.length p.2 } : Row))) =
        (rest.enum.map Prod.fst).map (fun n : Nat => (n : Int)) := by
      rw [List.map_map]; rfl
    rw [hmap, List.enum_map_fst]
    exact (List.nodup_range rest.length).map (fun a b h => Int.ofNat_inj.mp h)

theorem addRow_ids_nodup (t : Table) (h : (t.rows.map Row.id).Nodup) :
    ((addRow t).rows.map Row.id).Nodup := by
  unfold addRow
  simp only [List.map_append, List.map_cons, List.map_nil]
  rw [List.nodup_append]
  refine ⟨h, List.nodup_singleton _, ?_⟩
  intro a ha hb
  rcases List.mem_singleton.mp hb with rfl
  exact maxId_succ_not_mem t.rows ha

theorem deleteSelectedRow_ids_nodup (t : Table) (ids : List Int)
    (h : (t.rows.map Row.id).Nodup) :
    ((deleteSelectedRow t ids).rows.map Row.id).Nodup := by
  unfold deleteSelectedRow
  exact ((List.filter_sublist t.rows).map Row.id).nodup h

theorem applyEditOps_ids_nodup (ops : List EditOp) :
    ∀ t : Table, (t.rows.map Row.id).Nodup →
      ((applyEditOps t ops).rows.map Row.id).Nodup := by
  induction ops with
  | nil => intro t h; exact h
  | cons op rest ih =>
    intro t h
    show ((applyEditOps (applyEditOp t op) rest).rows.map Row.id).Nodup
    apply ih
    cases op with
    | add => exact addRow_ids_nodup t h
    | delete ids => exact deleteSelectedRow_ids_nodup t ids h

/-- Claim C3 (amended): across any session of `addRow` and row-deletion
operations starting from a parsed table, the row ids always remain pairwise
distinct — the id `addRow` assigns is never held by any row present at
assignment time — although an id previously freed by a deletion can be
assigned again (see `row_id_reuse_after_delete`). -/
theorem editSession_ids_nodup (csvText : List Char) (ops : List EditOp) :
    ((applyEditOps (parseCSV csvText) ops).rows.map Row.id).Nodup ∧
    (∀ t : Table, maxId t.rows + 1 ∉ t.rows.map Row.id) :=
  ⟨applyEditOps_ids_nodup ops (parseCSV csvText) (parseCSV_ids_nodup csvText),
   fun t => maxId_succ_not_mem t.rows⟩

/-- Witness for `editSession_ids_nodup`: the freshness statement at a
concrete one-row table. -/
theorem editSession_ids_nodup_witness :
    maxId [({ id := 7, values := [] } : Row)] + 1 ∉
      [({ id := 7, values := [] } : Row)].map Row.id :=
  (editSession_ids_nodup [] []).2 { headers := [], rows := [{ id := 7, values := [] }] }

/-- Claim C3 counterexample: starting from the parsed two-row table, deleting
the row with id 1 and then calling `addRow` assigns the new row the id 1 that
a deleted row previously held — ids are reused within a session. -/
theorem row_id_reuse_after_delete :
    (1 : Int) ∈ (parseCSV ("h\nx\ny\n".toList)).rows.map Row.id ∧
    (1 : Int) ∉
      (applyEditOps (parseCSV ("h\nx\ny\n".toList)) [EditOp.delete [1]]).rows.map Row.id ∧
    (1 : Int) ∈
      (applyEditOps (parseCSV ("h\nx\ny\n".toList))
        [EditOp.delete [1], EditOp.add]).rows.map Row.id := by decide

/-! ### Claim C10: every parsed header and cell is trim-fixed -/

theorem pcrNewline_pos (f : CsvField) (r : List CsvField) (rs : List (List CsvField))
    (h : jsTrim f ≠ [] ∨ r ≠ []) :
    pcrNewline f r rs =
      ([], [],
        if (r ++ [jsTrim f]).any (fun x => x.length > 0) then rs ++ [r ++ [jsTrim f]]
        else rs) := by
  unfold pcrNewline
  rw [if_pos h]

theorem pcrNewline_neg (f : CsvField) (r : List CsvField) (rs : List (List CsvField))
    (h : ¬(jsTrim f ≠ [] ∨ r ≠ [])) :
    pcrNewline f r rs = (f, r, rs) := by
  unfold pcrNewline
  rw [if_neg h]

theorem pcrNewline_record_trimmed (f : CsvField) (r : List CsvField)
    (rs : List (List CsvField)) (hr : ∀ x ∈ r, jsTrim x = x) :
    ∀ x ∈ (pcrNewline f r rs).2.1, jsTrim x = x := by
  by_cases h : jsTrim f ≠ [] ∨ r ≠ []
  · rw [pcrNewline_pos f r rs h]
    intro x hx
    cases hx
  · rw [pcrNewline_neg f r rs h]
    exact hr

theorem pcrNewline_records_trimmed (f : CsvField) (r : List CsvField)
    (rs : List (List CsvField)) (hr : ∀ x ∈ r, jsTrim x = x)
    (hrs : ∀ rec ∈ rs, ∀ x ∈ rec, jsTrim x = x) :
    ∀ rec ∈ (pcrNewline f r rs).2.2, ∀ x ∈ rec, jsTrim x = x := by
  intro rec hrec
  by_cases h : jsTrim f ≠ [] ∨ r ≠ []
  · rw [pcrNewline_pos f r rs h] at hrec
    have hrec2 : rec ∈ (if (r ++ [jsTrim f]).any (fun x => x.length > 0) then
        rs ++ [r ++ [jsTrim f]] else rs) := hrec
    by_cases h2 : (r ++ [jsTrim f]).any (fun x => x.length > 0) = true
    · rw [if_pos h2] at hrec2
      rcases List.mem_append.mp hrec2 with h3 | h3
      · exact hrs rec h3
      · rcases List.mem_singleton.mp h3 with rfl
        intro x hx
        rcases List.mem_append.mp hx with h4 | h4
        · exact hr x h4
        · rcases List.mem_singleton.mp h4 with rfl
          exact jsTrim_idem f
    · rw [if_neg h2] at hrec2
      exact hrs rec hrec2
  · rw [pcrNewline_neg f r rs h] at hrec
    exact hrs rec hrec

theorem pcr_trimmed : ∀ (cs : List Char) (iq : Bool) (f : CsvField) (r : List CsvField)
    (rs : List (List CsvField)),
    (∀ x ∈ r, jsTrim x = x) → (∀ rec ∈ rs, ∀ x ∈ rec, jsTrim x = x) →
    ∀ rec ∈ pcr cs iq f r rs, ∀ x ∈ rec, jsTrim x = x := by
  intro cs iq f r rs
  induction cs, iq, f, r, rs using pcr.induct with
  | case1 iq f r rs =>
    intro hr hrs
    rw [pcr_nil]
    exact pcrNewline_records_trimmed f r rs hr hrs
  | case2 cs f r rs ih =>
    intro hr hrs
    rw [pcr_quote_escape]
    exact ih hr hrs
  | case3 cs f r rs hne ih =>
    intro hr hrs
    have hh : cs.head? ≠ some '"' := by
      cases cs with
      | nil => simp
      | cons a l =>
        intro hha
        injection hha with h2
        exact hne l (by rw [h2])
    rw [pcr_quote_close cs f r rs hh]
    exact ih hr hrs
  | case4 cs f r rs ih =>
    intro hr hrs
    rw [pcr_quote_open]
    exact ih hr hrs
  | case5 cs f r rs ih =>
    intro hr hrs
    rw [pcr_comma]
    refine ih ?_ hrs
    intro x hx
    rcases List.mem_append.mp hx with h2 | h2
    · exact hr x h2
    · rcases List.mem_singleton.mp h2 with rfl
      exact jsTrim_idem f
  | case6 cs f r rs ih =>
    intro hr hrs
    rw [pcr_crlf]
    exact ih (pcrNewline_record_trimmed f r rs hr)
      (pcrNewline_records_trimmed f r rs hr hrs)
  | case7 cs f r rs ih =>
    intro hr hrs
    rw [pcr_lf]
    exact ih (pcrNewline_record_trimmed f r rs hr)
      (pcrNewline_records_trimmed f r rs hr hrs)
  | case8 cs f r rs hne ih =>
    intro hr hrs
    have hh : cs.head? ≠ some '\n' := by
      cases cs with
      | nil => simp
      | cons a l =>
        intro hha
        injection hha with h2
        exact hne l (by rw [h2])
    rw [pcr_cr cs f r rs hh]
    exact ih (pcrNewline_record_trimmed f r rs hr)
      (pcrNewline_records_trimmed f r rs hr hrs)
  | case9 c cs inQ f r rs h1 h2 h3 h4 h5 h6 h7 ih =>
    intro hr hrs
    have hq : c ≠ '"' := by
      intro hcq
      rcases Bool.eq_false_or_eq_true inQ with hb | hb
      · exact h2 hcq hb
      · exact h3 hcq hb
    rcases Bool.eq_false_or_eq_true inQ with hb | hb
    · subst hb
      rw [pcr_true_other c hq]
      exact ih hr hrs
    · subst hb
      rw [pcr_other c hq (fun hcc => h4 hcc rfl) (fun hcc => h6 hcc rfl)
        (fun hcc => h7 hcc rfl)]
      exact ih hr hrs

/-- Claim C10: for every input text, every header and every cell value of
the parsed table is free of leading and trailing whitespace (it is a fixed
point of `jsTrim`) — fields are trimmed as they are pushed, after any
surrounding quotes have been consumed, so quoting does not protect
leading/trailing whitespace. -/
theorem parseCSV_fields_trimmed (csvText : List Char) :
    (∀ hd ∈ (parseCSV csvText).headers, jsTrim hd = hd) ∧
    (∀ r ∈ (parseCSV csvText).rows, ∀ v ∈ r.values, jsTrim v = v) := by
  have hrecs : ∀ rec ∈ parseCSVRecords csvText, ∀ x ∈ rec, jsTrim x = x :=
    pcr_trimmed csvText false [] [] []
      (fun x hx => absurd hx (List.not_mem_nil x))
      (fun rec hrec => absurd hrec (List.not_mem_nil rec))
  unfold parseCSV
  cases hp : parseCSVRecords csvText with
  | nil =>
    exact ⟨fun hd hh => absurd hh (List.not_mem_nil hd),
           fun r hr => absurd hr (List.not_mem_nil r)⟩
  | cons headers rest =>
    rw [hp] at hrecs
    constructor
    · exact hrecs headers (List.mem_cons_self _ _)
    · intro r hr v hv
      obtain ⟨p, hp2, hfa⟩ := List.mem_map.mp hr
      subst hfa
      have hv2 : v ∈ p.2 ++ List.replicate (headers.length - p.2.length) [] := hv
      have hp3 : p.2 ∈ rest := by
        have hz : p ∈ (List.range rest.length).zip rest := by
          rw [← List.enum_eq_zip_range]
          exact hp2
        exact (List.of_mem_zip hz).2
      rcases List.mem_append.mp hv2 with h1 | h1
      · exact hrecs p.2 (List.mem_cons_of_mem _ hp3) v h1
      · rcases List.eq_of_mem_replicate h1 with rfl
        rfl

/-- Witness for `parseCSV_fields_trimmed`: applied to the input
`"h\n\" a \"\n"` whose quoted cell `" a "` is parsed (and trimmed) to
`"a"`. -/
theorem parseCSV_fields_trimmed_witness :
    jsTrim ("a".toList) = "a".toList := by
  have h := (parseCSV_fields_trimmed ("h\n\" a \"\n".toList)).2
  exact h { id := 0, values := ["a".toList] } (by decide) ("a".toList) (by decide)

/-! ### Claim C1: serialize-then-parse round trip -/

theorem pcr_no_special : ∀ (f : CsvField), needsQuote f = false →
    ∀ (rest : List Char) (f0 : CsvField) (r : List CsvField) (rs : List (List CsvField)),
    pcr (f ++ rest) false f0 r rs = pcr rest false (f0 ++ f) r rs := by
  intro f
  induction f with
  | nil => intro _ rest f0 r rs; rw [List.nil_append, List.append_nil]
  | cons c cs ih =>
    intro hf rest f0 r rs
    have hsplit := hf
    unfold needsQuote at hsplit
    rw [List.any_cons] at hsplit
    have hc := (Bool.or_eq_false_iff.mp hsplit).1
    have hcs : needsQuote cs = false := (Bool.or_eq_false_iff.mp hsplit).2
    have h1 : c ≠ ',' := by intro h; subst h; simp at hc
    have h2 : c ≠ '"' := by intro h; subst h; simp at hc
    have h3 : c ≠ '\n' := by intro h; subst h; simp at hc
    have h4 : c ≠ '\r' := by intro h; subst h; simp at hc
    rw [List.cons_append, pcr_other c h2 h1 h3 h4, ih hcs rest (f0 ++ [c]) r rs,
      List.append_assoc, List.singleton_append]

theorem pcr_dupQuotes : ∀ (f : CsvField) (rest : List Char) (f0 : CsvField)
    (r : List CsvField) (rs : List (List CsvField)),
    pcr (dupQuotes f ++ rest) true f0 r rs = pcr rest true (f0 ++ f) r rs := by
  intro f
  induction f with
  | nil =>
    intro rest f0 r rs
    rw [show dupQuotes [] = [] from rfl, List.nil_append, List.append_nil]
  | cons c cs ih =>
    intro rest f0 r rs
    by_cases h : c = '"'
    · subst h
      rw [show dupQuotes ('"' :: cs) = '"' :: '"' :: dupQuotes cs from by
          simp [dupQuotes]]
      rw [List.cons_append, List.cons_append, pcr_quote_escape,
        ih rest (f0 ++ ['"']) r rs, List.append_assoc, List.singleton_append]
    · rw [show dupQuotes (c :: cs) = c :: dupQuotes cs from by
          simp [dupQuotes, h]]
      rw [List.cons_append, pcr_true_other c h, ih rest (f0 ++ [c]) r rs,
        List.append_assoc, List.singleton_append]

theorem pcr_escapeCSVField (f : CsvField) (rest : List Char)
    (hrest : rest.head? ≠ some '"') (f0 : CsvField) (r : List CsvField)
    (rs : List (List CsvField)) :
    pcr (escapeCSVField f ++ rest) false f0 r rs = pcr rest false (f0 ++ f) r rs := by
  by_cases h : needsQuote f = true
  · rw [escapeCSVField, if_pos h, List.cons_append, pcr_quote_open,
      List.append_assoc, List.singleton_append, pcr_dupQuotes f ('"' :: rest) f0 r rs,
      pcr_quote_close rest (f0 ++ f) r rs hrest]
  · rw [escapeCSVField, if_neg h]
    exact pcr_no_special f (Bool.eq_false_iff.mpr h) rest f0 r rs

theorem pcr_newline_step (f : CsvField) (hf : jsTrim f = f) (rec0 : List CsvField)
    (rs : List (List CsvField)) (rest : List Char) :
    pcr rest false (pcrNewline f rec0 rs).1 (pcrNewline f rec0 rs).2.1
      (pcrNewline f rec0 rs).2.2 =
    pcr rest false [] []
      (if (rec0 ++ [f]).any (fun x => x.length > 0) then rs ++ [rec0 ++ [f]] else rs) := by
  by_cases h : jsTrim f ≠ [] ∨ rec0 ≠ []
  · rw [pcrNewline_pos f rec0 rs h, hf]
  · push_neg at h
    obtain ⟨h1, h2⟩ := h
    have hf0 : f = [] := by rw [← hf, h1]
    rw [pcrNewline_neg f rec0 rs (by push_neg; exact ⟨h1, h2⟩)]
    subst h2
    rw [hf0]
    rw [if_neg (by decide)]

theorem pcr_record : ∀ (fs : List CsvField), fs ≠ [] →
    (∀ f ∈ fs, jsTrim f = f) →
    ∀ (rec0 : List CsvField) (rest : List Char) (rs : List (List CsvField)),
    pcr (joinComma (fs.map escapeCSVField) ++ '\n' :: rest) false [] rec0 rs =
      pcr rest false [] []
        (if (rec0 ++ fs).any (fun x => x.length > 0) then rs ++ [rec0 ++ fs] else rs) := by
  intro fs
  induction fs with
  | nil => intro h; cases h rfl
  | cons f fs' ih =>
    intro _ ht rec0 rest rs
    cases fs' with
    | nil =>
      rw [show joinComma ([f].map escapeCSVField) = escapeCSVField f from rfl]
      rw [pcr_escapeCSVField f ('\n' :: rest) (by simp) [] rec0 rs]
      rw [List.nil_append, pcr_lf]
      exact pcr_newline_step f (ht f (List.mem_singleton.mpr rfl)) rec0 rs rest
    | cons f2 fs'' =>
      rw [show joinComma ((f :: f2 :: fs'').map escapeCSVField) =
          escapeCSVField f ++ ',' :: joinComma ((f2 :: fs'').map escapeCSVField) from rfl]
      rw [List.append_assoc]
      rw [show (',' :: joinComma ((f2 :: fs'').map escapeCSVField)) ++ '\n' :: rest =
          ',' :: (joinComma ((f2 :: fs'').map escapeCSVField) ++ '\n' :: rest) from rfl]
      rw [pcr_escapeCSVField f _ (by simp) [] rec0 rs]
      rw [List.nil_append, pcr_comma]
      rw [ht f (List.mem_cons_self f (f2 :: fs''))]
      rw [ih (by simp) (fun x hx => ht x (List.mem_cons_of_mem f hx)) (rec0 ++ [f]) rest rs]
      rw [List.append_assoc, List.singleton_append]

theorem pcr_rows : ∀ (rrs : List (List CsvField)),
    (∀ vs ∈ rrs, vs ≠ [] ∧ (∀ f ∈ vs, jsTrim f = f) ∧
      vs.any (fun x => x.length > 0) = true) →
    ∀ (rs : List (List CsvField)),
    pcr ((rrs.map (fun vs => joinComma (vs.map escapeCSVField) ++ ['\n'])).flatten)
      false [] [] rs = rs ++ rrs := by
  intro rrs
  induction rrs with
  | nil =>
    intro _ rs
    rw [show ((([] : List (List CsvField)).map
        (fun vs => joinComma (vs.map escapeCSVField) ++ ['\n'])).flatten) = ([] : List Char)
      from rfl]
    rw [pcr_nil, pcrNewline_neg [] [] rs (by push_neg; exact ⟨rfl, rfl⟩)]
    rw [List.append_nil]
  | cons vs rrs' ih =>
    intro h rs
    obtain ⟨hne, htr, hany⟩ := h vs (List.mem_cons_self vs rrs')
    rw [List.map_cons, List.flatten_cons, List.append_assoc, List.singleton_append]
    rw [pcr_record vs hne htr [] _ rs]
    rw [List.nil_append]
    rw [if_pos hany]
    rw [ih (fun x hx => h x (List.mem_cons_of_mem vs hx)) (rs ++ [vs])]
    rw [List.append_assoc, List.singleton_append]

theorem parseCSVRecords_generate (t : Table)
    (hh : t.headers.any (fun x => x.length > 0) = true)
    (hht : ∀ f ∈ t.headers, jsTrim f = f)
    (hrows : ∀ r ∈ t.rows, (∀ f ∈ r.values, jsTrim f = f) ∧
      r.values.any (fun x => x.length > 0) = true) :
    parseCSVRecords (generateCSVContent t) = t.headers :: t.rows.map Row.values := by
  unfold parseCSVRecords generateCSVContent
  rw [List.append_assoc, List.singleton_append]
  have hne : t.headers ≠ [] := by
    intro he
    rw [he] at hh
    exact absurd hh (by simp)
  rw [pcr_record t.headers hne hht [] _ []]
  rw [List.nil_append, if_pos hh, List.nil_append]
  rw [show t.rows.map (fun r => joinComma (r.values.map escapeCSVField) ++ ['\n']) =
      (t.rows.map Row.values).map (fun vs => joinComma (vs.map escapeCSVField) ++ ['\n'])
    from by rw [List.map_map]; rfl]
  have hvs : ∀ vs ∈ t.rows.map Row.values, vs ≠ [] ∧ (∀ f ∈ vs, jsTrim f = f) ∧
      vs.any (fun x => x.length > 0) = true := by
    intro vs hmem
    obtain ⟨r, hr, hfa⟩ := List.mem_map.mp hmem
    subst hfa
    obtain ⟨h1, h2⟩ := hrows r hr
    refine ⟨?_, h1, h2⟩
    intro he
    rw [he] at h2
    exact absurd h2 (by simp)
  rw [pcr_rows (t.rows.map Row.values) hvs [t.headers]]
  rw [List.singleton_append]

theorem enumFrom_padTo_map (n : Nat) : ∀ (rows : List Row) (k : Nat),
    (∀ i (hi : i < rows.length), (rows.get ⟨i, hi⟩).id = ((k + i : Nat) : Int)) →
    (∀ r ∈ rows, r.values.length = n) →
    (List.enumFrom k (rows.map Row.values)).map
      (fun p => ({ id := (p.1 : Int), values := padTo n p.2 } : Row)) = rows := by
  intro rows
  induction rows with
  | nil => intro k _ _; rfl
  | cons a l ih =>
    intro k hids hlen
    rw [List.map_cons]
    rw [show List.enumFrom k (a.values :: l.map Row.values) =
        (k, a.values) :: List.enumFrom (k + 1) (l.map Row.values) from rfl]
    rw [List.map_cons]
    have hid0 : a.id = (k : Int) := by
      have h0 := hids 0 (by simp)
      simpa using h0
    have hlen0 : a.values.length = n := hlen a (List.mem_cons_self a l)
    have hpad : padTo n a.values = a.values := by
      unfold padTo
      rw [hlen0, Nat.sub_self]
      rw [show List.replicate 0 ([] : CsvField) = [] from rfl, List.append_nil]
    congr 1
    · rw [hpad, ← hid0]
    · refine ih (k + 1) ?_ (fun r hr => hlen r (List.mem_cons_of_mem a hr))
      intro i hi
      have h2 := hids (i + 1) (Nat.succ_lt_succ hi)
      rw [show ((a :: l).get ⟨i + 1, Nat.succ_lt_succ hi⟩) = l.get ⟨i, hi⟩ from rfl] at h2
      rw [h2]
      congr 1
      omega

/-- Claim C1 (amended): serialize-then-parse is the identity on tables whose
row ids equal their zero-based positions, whose rows all have exactly
`headers.length` values including at least one non-empty one, whose header
row has a non-empty field, and whose header and cell strings are free of
leading and trailing whitespace.  (The extra conditions beyond the claim's
are forced: the parser reassigns positional ids, drops all-empty records —
the header row included — and pads every row to the header width.) -/
theorem parse_generateCSV_roundtrip (t : Table)
    (hids : ∀ i (hi : i < t.rows.length), (t.rows.get ⟨i, hi⟩).id = (i : Int))
    (hlen : ∀ r ∈ t.rows, r.values.length = t.headers.length)
    (hh : t.headers.any (fun x => x.length > 0) = true)
    (hht : ∀ f ∈ t.headers, jsTrim f = f)
    (hrows : ∀ r ∈ t.rows, (∀ f ∈ r.values, jsTrim f = f) ∧
      r.values.any (fun x => x.length > 0) = true) :
    parseCSV (generateCSVContent t) = t := by
  unfold parseCSV
  rw [parseCSVRecords_generate t hh hht hrows]
  show Table.mk t.headers ((List.enum (t.rows.map Row.values)).map
      (fun p => Row.mk (p.1 : Int) (padTo t.headers.length p.2))) = t
  rw [show List.enum (t.rows.map Row.values) = List.enumFrom 0 (t.rows.map Row.values)
    from rfl]
  rw [enumFrom_padTo_map t.headers.length t.rows 0
    (fun i hi => by simpa using hids i hi) hlen]

/-- Witness for `parse_generateCSV_roundtrip`: the round trip on a concrete
two-row table whose second cell needs quoting and whose last cell is empty. -/
theorem parse_generateCSV_roundtrip_witness :
    parseCSV (generateCSVContent
      { headers := ["Day".toList, "Menu".toList],
        rows := [{ id := 0, values := ["Mon".toList, "a, \"b\"".toList] },
                 { id := 1, values := ["Tue".toList, "".toList] }] }) =
      { headers := ["Day".toList, "Menu".toList],
        rows := [{ id := 0, values := ["Mon".toList, "a, \"b\"".toList] },
                 { id := 1, values := ["Tue".toList, "".toList] }] } := by
  apply parse_generateCSV_roundtrip
  · intro i hi
    have hi2 : i < 2 := hi
    interval_cases i <;> rfl
  · decide
  · decide
  · decide
  · decide
